import Mathlib

/-!
Verification development for the streaming analysis client of the
ai-hedge-fund frontend (function `runAnalysis` in the api service module).

The client posts a JSON request, then consumes the response body as a byte
stream: bytes are decoded incrementally to text, the text is accumulated in
a buffer and split on newline characters, each complete line is inspected
for the SSE "data: " convention, its payload is JSON-decoded, and the
decoded frame is dispatched to one of the callbacks onProgress, onComplete,
onError according to its type field.  The embedding below models the byte
decoder, the JSON decoder, the framing loop and the dispatch policy, plus
the surrounding request construction and error handling.
-/

/-- JSON values, as produced by the platform JSON decoder.  Strings are
modelled as character lists; numbers are modelled exactly as rationals
(the platform uses binary floating point, but no claim inspects numeric
values, only their truthiness). -/
inductive Json where
  | null
  | bool (b : Bool)
  | num (q : Rat)
  | str (s : List Char)
  | arr (elems : List Json)
  | obj (fields : List (List Char × Json))

/-- JSON whitespace characters (space, tab, line feed, carriage return). -/
def jsonWs (c : Char) : Bool :=
  c == ' ' || c == '\t' || c == '\n' || c == '\x0d'

/-- Drop leading JSON whitespace. -/
def skipWs : List Char → List Char
  | [] => []
  | c :: cs => if jsonWs c then skipWs cs else c :: cs

/-- Value of a hexadecimal digit character. -/
def hexVal (c : Char) : Option Nat :=
  if '0' ≤ c ∧ c ≤ '9' then some (c.toNat - 48)
  else if 'a' ≤ c ∧ c ≤ 'f' then some (c.toNat - 87)
  else if 'A' ≤ c ∧ c ≤ 'F' then some (c.toNat - 55)
  else none

/-- Value of a decimal digit character. -/
def digitVal (c : Char) : Option Nat :=
  if '0' ≤ c ∧ c ≤ '9' then some (c.toNat - 48) else none

/-- Take the maximal run of leading decimal digits. -/
def takeDigits : List Char → List Nat × List Char
  | [] => ([], [])
  | c :: cs =>
    match digitVal c with
    | none => ([], c :: cs)
    | some d =>
      let (ds, r) := takeDigits cs
      (d :: ds, r)

/-- Numeric value of a digit run. -/
def digitsVal (ds : List Nat) : Nat := ds.foldl (fun a d => a * 10 + d) 0

/-- Decode the body of a JSON string literal (after the opening quote),
returning the decoded characters and the remaining input.  Handles the JSON
escape sequences including \uXXXX with surrogate-pair combination; rejects
unescaped control characters, as the platform decoder does.  A lone
surrogate, which the platform keeps as an unpaired UTF-16 code unit, is
mapped to the NUL character here (no claim depends on that corner). -/
def parseStringBody (fuel : Nat) (s : List Char) (acc : List Char) :
    Option (List Char × List Char) :=
  match fuel, s with
  | 0, _ => none
  | _, [] => none
  | fuel + 1, c :: cs =>
    if c = '"' then some (acc.reverse, cs)
    else if c.toNat < 32 then none
    else if c = '\\' then
      match cs with
      | '"' :: r => parseStringBody fuel r ('"' :: acc)
      | '\\' :: r => parseStringBody fuel r ('\\' :: acc)
      | '/' :: r => parseStringBody fuel r ('/' :: acc)
      | 'b' :: r => parseStringBody fuel r ('\x08' :: acc)
      | 'f' :: r => parseStringBody fuel r ('\x0c' :: acc)
      | 'n' :: r => parseStringBody fuel r ('\n' :: acc)
      | 'r' :: r => parseStringBody fuel r ('\x0d' :: acc)
      | 't' :: r => parseStringBody fuel r ('\t' :: acc)
      | 'u' :: h1 :: h2 :: h3 :: h4 :: r =>
        (match hexVal h1, hexVal h2, hexVal h3, hexVal h4 with
         | some a, some b, some c1, some d =>
           let code := ((a * 16 + b) * 16 + c1) * 16 + d
           if 0xD800 ≤ code ∧ code ≤ 0xDBFF then
             match r with
             | '\\' :: 'u' :: g1 :: g2 :: g3 :: g4 :: r2 =>
               (match hexVal g1, hexVal g2, hexVal g3, hexVal g4 with
                | some a2, some b2, some c2, some d2 =>
                  let code2 := ((a2 * 16 + b2) * 16 + c2) * 16 + d2
                  if 0xDC00 ≤ code2 ∧ code2 ≤ 0xDFFF then
                    parseStringBody fuel r2
                      (Char.ofNat (0x10000 + (code - 0xD800) * 1024 +
                        (code2 - 0xDC00)) :: acc)
                  else parseStringBody fuel r (Char.ofNat code :: acc)
                | _, _, _, _ => parseStringBody fuel r (Char.ofNat code :: acc))
             | _ => parseStringBody fuel r (Char.ofNat code :: acc)
           else parseStringBody fuel r (Char.ofNat code :: acc)
         | _, _, _, _ => none)
      | _ => none
    else parseStringBody fuel cs (c :: acc)

/-- Decode the optional fraction part of a JSON number: digits after a
decimal point, or an empty digit run when no point is present. -/
def parseFrac : List Char → Option (List Nat × List Char)
  | '.' :: r =>
    let (ds, r2) := takeDigits r
    if ds.isEmpty then none else some (ds, r2)
  | s => some ([], s)

/-- Decode the digits of a JSON exponent after the e marker. -/
def parseExpTail (s : List Char) : Option (Int × List Char) :=
  let (sgn, s1) : Int × List Char :=
    match s with
    | '+' :: r => (1, r)
    | '-' :: r => (-1, r)
    | _ => (1, s)
  let (ds, r) := takeDigits s1
  if ds.isEmpty then none else some (sgn * (digitsVal ds : Int), r)

/-- Decode the optional exponent part of a JSON number. -/
def parseExp : List Char → Option (Int × List Char)
  | 'e' :: r => parseExpTail r
  | 'E' :: r => parseExpTail r
  | s => some (0, s)

/-- Numeric value from the parts of a JSON number literal. -/
def numValue (neg : Bool) (ip : Nat) (frac : List Nat) (ex : Int) : Rat :=
  let base : Rat := (ip : Rat) + (digitsVal frac : Rat) / (10 : Rat) ^ frac.length
  let v : Rat := base * (10 : Rat) ^ ex
  if neg then -v else v

/-- Decode a JSON number literal, following the JSON grammar (optional
minus, integer part without leading zeros, optional fraction, optional
exponent).  The value is computed exactly as a rational. -/
def parseNumber (s : List Char) : Option (Rat × List Char) :=
  let (neg, s1) : Bool × List Char :=
    match s with
    | '-' :: r => (true, r)
    | _ => (false, s)
  match s1 with
  | '0' :: r =>
    (match parseFrac r with
     | none => none
     | some (frac, r2) =>
       match parseExp r2 with
       | none => none
       | some (ex, r3) => some (numValue neg 0 frac ex, r3))
  | _ =>
    let (ds, r) := takeDigits s1
    if ds.isEmpty then none
    else
      match parseFrac r with
      | none => none
      | some (frac, r2) =>
        match parseExp r2 with
        | none => none
        | some (ex, r3) => some (numValue neg (digitsVal ds) frac ex, r3)

mutual

/-- Decode one JSON value from the input, returning it and the remaining
input.  Fuel-indexed; the top-level entry point supplies ample fuel. -/
def parseValue : Nat → List Char → Option (Json × List Char)
  | 0, _ => none
  | fuel + 1, s =>
    match skipWs s with
    | 'n' :: 'u' :: 'l' :: 'l' :: r => some (.null, r)
    | 't' :: 'r' :: 'u' :: 'e' :: r => some (.bool true, r)
    | 'f' :: 'a' :: 'l' :: 's' :: 'e' :: r => some (.bool false, r)
    | '"' :: r =>
      (match parseStringBody (r.length + 1) r [] with
       | some (cs, r2) => some (.str cs, r2)
       | none => none)
    | '[' :: r =>
      (match skipWs r with
       | ']' :: r2 => some (.arr [], r2)
       | _ => parseElems fuel r [])
    | '\x7b' :: r =>
      (match skipWs r with
       | '\x7d' :: r2 => some (.obj [], r2)
       | _ => parseFields fuel r [])
    | s1 =>
      match parseNumber s1 with
      | some (q, r) => some (.num q, r)
      | none => none

/-- Decode the elements of a non-empty JSON array. -/
def parseElems : Nat → List Char → List Json → Option (Json × List Char)
  | 0, _, _ => none
  | fuel + 1, s, acc =>
    match parseValue fuel s with
    | none => none
    | some (v, r) =>
      match skipWs r with
      | ',' :: r2 => parseElems fuel r2 (v :: acc)
      | ']' :: r2 => some (.arr (v :: acc).reverse, r2)
      | _ => none

/-- Decode the members of a non-empty JSON object.  Duplicate keys are kept
in order; field access resolves to the last occurrence, as the platform
object model does. -/
def parseFields : Nat → List Char → List (List Char × Json) →
    Option (Json × List Char)
  | 0, _, _ => none
  | fuel + 1, s, acc =>
    match skipWs s with
    | '"' :: r =>
      (match parseStringBody (r.length + 1) r [] with
       | none => none
       | some (key, r1) =>
         match skipWs r1 with
         | ':' :: r2 =>
           (match parseValue fuel r2 with
            | none => none
            | some (v, r3) =>
              match skipWs r3 with
              | ',' :: r4 => parseFields fuel r4 ((key, v) :: acc)
              | '\x7d' :: r4 => some (.obj ((key, v) :: acc).reverse, r4)
              | _ => none)
         | _ => none)
    | _ => none

end

/-- Model of the platform JSON.parse: decode one value and require that
only whitespace remains; otherwise fail. -/
def JSON.parse (s : List Char) : Option Json :=
  match parseValue (2 * s.length + 8) s with
  | some (j, r) => if (skipWs r).isEmpty then some j else none
  | none => none

/-- Last-occurrence field lookup on a decoded object member list. -/
def lookupField (fields : List (List Char × Json)) (key : List Char) :
    Option Json :=
  fields.foldl (fun acc kv => if kv.1 = key then some kv.2 else acc) none

/-- Property access on a JSON value: a field of an object, absent
(undefined) otherwise. -/
def getField (j : Json) (key : List Char) : Option Json :=
  match j with
  | .obj fs => lookupField fs key
  | _ => none

/-- Truthiness of a JSON value under the scripting-language rules: null,
false, zero and the empty string are falsy, everything else is truthy. -/
def jsTruthy : Json → Bool
  | .null => false
  | .bool b => b
  | .num q => decide (q ≠ 0)
  | .str s => !s.isEmpty
  | .arr _ => true
  | .obj _ => true

/-- State of the incremental UTF-8 byte decoder (model of the platform
TextDecoder in streaming mode, following the WHATWG UTF-8 decode
algorithm): the partially assembled code point, how many continuation
bytes are still needed and how many have been seen, and the admissible
range for the next continuation byte. -/
structure DecoderState where
  codepoint : Nat
  needed : Nat
  seen : Nat
  lower : Nat
  upper : Nat
deriving DecidableEq

/-- Start state of the byte decoder. -/
def DecoderState.start : DecoderState := ⟨0, 0, 0, 0x80, 0xBF⟩

/-- The replacement character emitted for invalid byte sequences. -/
def replacementChar : Char := Char.ofNat 0xFFFD

/-- Decode one byte in the start state: ASCII is emitted directly, lead
bytes open a multi-byte sequence with the required continuation range, and
anything else is invalid and emits the replacement character. -/
def decodeStartByte (b : Nat) : DecoderState × List Char :=
  if b ≤ 0x7F then (.start, [Char.ofNat b])
  else if 0xC2 ≤ b ∧ b ≤ 0xDF then
    ({ codepoint := b % 32, needed := 1, seen := 0, lower := 0x80, upper := 0xBF }, [])
  else if 0xE0 ≤ b ∧ b ≤ 0xEF then
    ({ codepoint := b % 16, needed := 2, seen := 0,
       lower := if b = 0xE0 then 0xA0 else 0x80,
       upper := if b = 0xED then 0x9F else 0xBF }, [])
  else if 0xF0 ≤ b ∧ b ≤ 0xF4 then
    ({ codepoint := b % 8, needed := 3, seen := 0,
       lower := if b = 0xF0 then 0x90 else 0x80,
       upper := if b = 0xF4 then 0x8F else 0xBF }, [])
  else (.start, [replacementChar])

/-- Decode one byte: continuation bytes in range extend the pending code
point and emit it when complete; a continuation byte out of range emits the
replacement character and reprocesses the byte from the start state. -/
def decodeByte (st : DecoderState) (b : Nat) : DecoderState × List Char :=
  if st.needed = 0 then decodeStartByte b
  else if st.lower ≤ b ∧ b ≤ st.upper then
    let cp := st.codepoint * 64 + b % 64
    if st.seen + 1 = st.needed then (.start, [Char.ofNat cp])
    else ({ codepoint := cp, needed := st.needed, seen := st.seen + 1,
            lower := 0x80, upper := 0xBF }, [])
  else
    let (st2, out) := decodeStartByte b
    (st2, replacementChar :: out)

/-- Decode a chunk of bytes, threading the decoder state; this is the model
of one call of decoder.decode(value, with streaming) in the read loop. -/
def decodeChunk (st : DecoderState) (bytes : List Nat) :
    DecoderState × List Char :=
  match bytes with
  | [] => (st, [])
  | b :: rest =>
    let (st1, out1) := decodeByte st b
    let (st2, out2) := decodeChunk st1 rest
    (st2, out1 ++ out2)

/-- Split a character sequence at every newline, as buffer.split does:
the result always has one more part than there are newlines, and parts may
be empty. -/
def splitNL : List Char → List (List Char)
  | [] => [[]]
  | c :: cs =>
    if c = '\n' then [] :: splitNL cs
    else
      match splitNL cs with
      | [] => [[c]]
      | p :: ps => (c :: p) :: ps

/-- The complete newline-terminated lines of a buffer: all split parts but
the last.  This is what the read loop iterates over after popping the
trailing partial line. -/
def completeLines (s : List Char) : List (List Char) := (splitNL s).dropLast

/-- The trailing partial line of a buffer: the last split part, which the
read loop carries forward as the new buffer. -/
def lineRest (s : List Char) : List Char := (splitNL s).getLastD []

/-- Characters removed by the platform string trim (the common whitespace
subset; exotic Unicode space characters are not modelled). -/
def jsWsChar (c : Char) : Bool :=
  c == ' ' || c == '\t' || c == '\n' || c == '\x0d' || c == '\x0b' ||
  c == '\x0c' || c == '\xa0'

/-- Model of the platform string trim: strip leading and trailing
whitespace. -/
def jsTrim (s : List Char) : List Char :=
  ((s.dropWhile jsWsChar).reverse.dropWhile jsWsChar).reverse

/-- A dispatched callback invocation: onProgress with the whole decoded
frame, onComplete with the result field of the frame (absent when the
frame has none), or onError with the message argument. -/
inductive StreamEvent where
  | progress (payload : Json)
  | complete (result : Option Json)
  | error (message : Json)

/-- Whether an event is terminal: complete and error end the run, progress
does not. -/
def StreamEvent.isTerminal : StreamEvent → Bool
  | .progress _ => false
  | .complete _ => true
  | .error _ => true

/-- The fixed fallback error message of the client. -/
def fallbackMessage : List Char := "Analysis failed".toList

/-- The argument passed to onError for an error frame: the message field
of the frame when it is present and truthy, the fixed fallback otherwise.
This is the logical-or expression applied to the message field. -/
def messageOr (m : Option Json) : Json :=
  match m with
  | some v => if jsTruthy v then v else .str fallbackMessage
  | none => .str fallbackMessage

/-- The SSE data marker the client recognizes. -/
def dataMarker : List Char := "data: ".toList

/-- Process one extracted line: skip it when it is blank after trimming,
when it does not start with the data marker, when its payload is not valid
JSON, or when the decoded type field is unrecognized; otherwise produce
the corresponding callback invocation. -/
def processLine (line : List Char) : Option StreamEvent :=
  if (jsTrim line).isEmpty then none
  else if ¬ (dataMarker.isPrefixOf line) then none
  else
    match JSON.parse (line.drop 6) with
    | none => none
    | some data =>
      match getField data "type".toList with
      | some (.str t) =>
        if t = "progress".toList then some (.progress data)
        else if t = "complete".toList then
          some (.complete (getField data "result".toList))
        else if t = "error".toList then
          some (.error (messageOr (getField data "message".toList)))
        else none
      | _ => none

/-- Process a list of extracted lines in order, stopping at the first
terminal dispatch (the source returns from the whole function there);
yields the dispatched events and whether a terminal dispatch occurred. -/
def processLines : List (List Char) → List StreamEvent × Bool
  | [] => ([], false)
  | l :: ls =>
    match processLine l with
    | none => processLines ls
    | some e =>
      if e.isTerminal then ([e], true)
      else
        let (evs, t) := processLines ls
        (e :: evs, t)

/-- Runtime state of one streaming session: decoder state, pending partial
line, events dispatched so far, and whether a terminal dispatch has
occurred (the read loop has returned). -/
structure SessionState where
  decoder : DecoderState
  buffer : List Char
  events : List StreamEvent
  terminated : Bool

/-- Session state at the start of the read loop. -/
def SessionState.start : SessionState := ⟨.start, [], [], false⟩

/-- Process one received byte chunk, exactly as one iteration of the read
loop: decode the bytes, append to the buffer, split on newlines, keep the
trailing partial line, and dispatch the complete lines in order.  After a
terminal dispatch the loop has returned, so further chunks leave the state
untouched. -/
def processChunk (st : SessionState) (bytes : List Nat) : SessionState :=
  if st.terminated then st
  else
    let (d, text) := decodeChunk st.decoder bytes
    let parts := splitNL (st.buffer ++ text)
    let (evs, t) := processLines parts.dropLast
    { decoder := d, buffer := parts.getLastD [],
      events := st.events ++ evs, terminated := t }

/-- Session state after consuming a sequence of byte chunks. -/
def runChunksState (chunks : List (List Nat)) : SessionState :=
  chunks.foldl processChunk .start

/-- The callback invocations dispatched while consuming a sequence of byte
chunks delivered by the transport. -/
def runChunks (chunks : List (List Nat)) : List StreamEvent :=
  (runChunksState chunks).events

/-- The full decoded text of a byte content, decoded from the start state. -/
def streamText (bytes : List Nat) : List Char :=
  (decodeChunk .start bytes).2

/-- The complete lines of a byte content, independent of chunking. -/
def streamLines (bytes : List Nat) : List (List Char) :=
  completeLines (streamText bytes)

/-- The dispatch sequence determined by a list of lines. -/
def dispatchSeq (lines : List (List Char)) : List StreamEvent :=
  (processLines lines).1

/-- How the transport phase of a run ends, as seen by the read loop: the
stream signals completion, the transport fails with an error whose message
is given, or the request is aborted by cancellation. -/
inductive StreamEnding where
  | done
  | failed (message : List Char)
  | aborted

/-- An exception propagating inside the run: the thrown HTTP status error,
a transport error, or the abort error produced by cancellation. -/
inductive JsError where
  | httpError (status : Nat)
  | transportError (message : List Char)
  | abortError
deriving DecidableEq

/-- The message carried by an exception.  The HTTP status error is thrown
with the fixed template message. -/
def JsError.text : JsError → List Char
  | .httpError s => ("HTTP error! status: " ++ toString s).toList
  | .transportError m => m
  | .abortError => "The user aborted a request.".toList

/-- Whether a response status is a success status. -/
def httpOk (status : Nat) : Bool := 200 ≤ status && status < 300

/-- The logical-or fallback applied to an exception message before it is
passed to onError. -/
def errMessageOr (m : List Char) : List Char :=
  if m.isEmpty then fallbackMessage else m

/-- The body of the run up to the surrounding catch: events dispatched, and
the exception that escaped the loop, if any.  A non-success status throws
before any read; otherwise the chunks are consumed, and if no terminal
dispatch occurred the ending of the transport determines whether the loop
finishes silently, a transport error is thrown, or the abort error is
thrown.  After a terminal dispatch the function has already returned, so
the ending is irrelevant. -/
def runStreamBody (status : Nat) (chunks : List (List Nat))
    (ending : StreamEnding) : List StreamEvent × Option JsError :=
  if ¬ httpOk status then ([], some (.httpError status))
  else
    let st := runChunksState chunks
    if st.terminated then (st.events, none)
    else
      match ending with
      | .done => (st.events, none)
      | .failed m => (st.events, some (.transportError m))
      | .aborted => (st.events, some .abortError)

/-- The catch clause of the run: an abort error is swallowed silently, any
other exception is surfaced once through onError with its message, or the
fixed fallback when the message is empty. -/
def handleFailure : List StreamEvent × Option JsError → List StreamEvent
  | (evs, none) => evs
  | (evs, some .abortError) => evs
  | (evs, some e) => evs ++ [.error (.str (errMessageOr e.text))]

/-- All callback invocations of one run, for a given response status, the
byte chunks delivered by the transport, and the way the transport ends. -/
def runStream (status : Nat) (chunks : List (List Nat))
    (ending : StreamEnding) : List StreamEvent :=
  handleFailure (runStreamBody status chunks ending)

/-- All callback invocations of a run that is cancelled at the k-th await
point of the read loop.  Cancellation can only interleave at an await
boundary (the event loop runs the synchronous chunk-processing block to
completion before any other task), so a cancelled run consumes exactly the
first k chunks; the next read rejects with the abort error, which the catch
clause swallows without invoking any callback.  k = 0 models cancellation
before the response resolves. -/
def runCancelled (chunks : List (List Nat)) (k : Nat) : List StreamEvent :=
  runStream 200 (chunks.take k) .aborted

/-- The analysis request value assembled by the caller (the optional date
and cash fields may be absent; numbers are modelled as rationals). -/
structure AnalysisRequest where
  tickers : List (List Char)
  selectedAnalysts : List (List Char)
  modelProvider : List Char
  modelName : List Char
  startDate : Option (List Char)
  endDate : Option (List Char)
  initialCash : Option Rat
  marginRequirement : Option Rat

/-- The logical-or applied to an optional numeric field: an absent value
and a zero value both fall back to the default. -/
def jsNumOr (x : Option Rat) (d : Rat) : Rat :=
  match x with
  | none => d
  | some v => if v = 0 then d else v

/-- An optional string member of the outbound body: the platform JSON
serializer omits members whose value is undefined. -/
def optMember (key : List Char) (v : Option (List Char)) :
    List (List Char × Json) :=
  match v with
  | some s => [(key, .str s)]
  | none => []

/-- The outbound JSON request body, member for member in the order of the
object literal in the source: the two cash members always receive the
logical-or defaults, and the optional date members are omitted when
absent. -/
def buildRequestBody (r : AnalysisRequest) : Json :=
  .obj ([("tickers".toList, .arr (r.tickers.map .str)),
         ("selected_agents".toList, .arr (r.selectedAnalysts.map .str)),
         ("model_name".toList, .str r.modelName),
         ("model_provider".toList, .str r.modelProvider)] ++
        optMember "start_date".toList r.startDate ++
        optMember "end_date".toList r.endDate ++
        [("initial_cash".toList, .num (jsNumOr r.initialCash 100000)),
         ("margin_requirement".toList, .num (jsNumOr r.marginRequirement 0))])

/-- The cancellation handle returned by the client: invoking it signals the
abort controller. -/
def cancelHandle : Unit → Unit := fun _ => ()

/-- The public entry point: synchronously returns the cancellation handle
together with the run behaviour, which is a function of inputs that only
become available later (the response status, the delivered chunks and the
transport ending).  The pair is built before any of those inputs is
consumed, which is how the source returns the cancel closure while the
asynchronous run is still in flight. -/
def runAnalysis (_r : AnalysisRequest) :
    (Unit → Unit) × (Nat → List (List Nat) → StreamEnding → List StreamEvent) :=
  (cancelHandle, fun status chunks ending => runStream status chunks ending)

/-- Byte encoding of an ASCII string, for building concrete stream
contents. -/
def asciiBytes (s : String) : List Nat := s.toList.map Char.toNat

/-- Framing helper used in proofs: the complete lines and trailing rest of
a character sequence, computed by direct recursion. -/
def frame : List Char → List (List Char) × List Char
  | [] => ([], [])
  | c :: cs =>
    let (ls, r) := frame cs
    if c = '\n' then ([] :: ls, r)
    else
      match ls with
      | [] => ([], c :: r)
      | l :: ls2 => ((c :: l) :: ls2, r)

theorem splitNL_eq_frame (s : List Char) :
    splitNL s = (frame s).1 ++ [(frame s).2] := by
  induction s with
  | nil => simp [splitNL, frame]
  | cons c cs ih =>
    by_cases h : c = '\n'
    · simp [splitNL, frame, h, ih]
    · rcases hf : frame cs with ⟨ls, r⟩
      cases ls with
      | nil => simp [splitNL, frame, h, ih, hf]
      | cons l ls2 => simp [splitNL, frame, h, ih, hf]

theorem getLastD_concat {α : Type} (l : List α) (a d : α) :
    (l ++ [a]).getLastD d = a := by
  induction l with
  | nil => rfl
  | cons x xs ih =>
    cases xs with
    | nil => rfl
    | cons y ys => simpa using ih

theorem completeLines_eq_frame (s : List Char) :
    completeLines s = (frame s).1 := by
  simp [completeLines, splitNL_eq_frame, List.dropLast_concat]

theorem lineRest_eq_frame (s : List Char) : lineRest s = (frame s).2 := by
  simp [lineRest, splitNL_eq_frame, getLastD_concat]

theorem frame_append (a b : List Char) :
    frame (a ++ b) =
      ((frame a).1 ++ (frame ((frame a).2 ++ b)).1,
       (frame ((frame a).2 ++ b)).2) := by
  induction a with
  | nil => simp [frame]
  | cons c a2 ih =>
    by_cases h : c = '\n'
    · simp [frame, h, ih]
    · rcases hf : frame a2 with ⟨ls, r⟩
      cases ls with
      | nil =>
        have hcons : (c :: r) ++ b = c :: (r ++ b) := rfl
        rcases hg : frame (r ++ b) with ⟨L2, R2⟩
        cases L2 with
        | nil => simp [frame, h, ih, hf, hcons, hg]
        | cons l2 L22 => simp [frame, h, ih, hf, hcons, hg]
      | cons l ls2 => simp [frame, h, ih, hf]

theorem frame_rest_no_nl (s : List Char) : '\n' ∉ (frame s).2 := by
  induction s with
  | nil => simp [frame]
  | cons c cs ih =>
    by_cases h : c = '\n'
    · simpa [frame, h] using ih
    · rcases hf : frame cs with ⟨ls, r⟩
      have ihr : '\n' ∉ r := by simpa [hf] using ih
      cases ls with
      | nil =>
        simp only [frame, hf, h, if_false]
        intro hmem
        rcases List.mem_cons.mp hmem with hmem | hmem
        · exact h hmem.symm
        · exact ihr hmem
      | cons l ls2 => simpa [frame, hf, h] using ihr

theorem frame_no_nl_eq (s : List Char) (h : '\n' ∉ s) : frame s = ([], s) := by
  induction s with
  | nil => rfl
  | cons c cs ih =>
    have hc : ¬ c = '\n' := fun hc => h (by simp [hc])
    have hcs : '\n' ∉ cs := fun hm => h (by simp [hm])
    simp [frame, ih hcs, hc]

theorem decodeChunk_append (b1 b2 : List Nat) : ∀ st : DecoderState,
    decodeChunk st (b1 ++ b2) =
      ((decodeChunk (decodeChunk st b1).1 b2).1,
       (decodeChunk st b1).2 ++ (decodeChunk (decodeChunk st b1).1 b2).2) := by
  induction b1 with
  | nil => intro st; simp [decodeChunk]
  | cons b rest ih =>
    intro st
    rcases hd : decodeByte st b with ⟨st1, out1⟩
    simp [decodeChunk, hd, ih st1]

theorem processLines_append (L1 L2 : List (List Char)) :
    processLines (L1 ++ L2) =
      if (processLines L1).2 then processLines L1
      else ((processLines L1).1 ++ (processLines L2).1, (processLines L2).2) := by
  induction L1 with
  | nil => simp [processLines]
  | cons l L1 ih =>
    rcases hl : processLine l with _ | e
    · simpa [processLines, hl] using ih
    · by_cases ht : e.isTerminal
      · simp [processLines, hl, ht]
      · rcases h1 : processLines L1 with ⟨evs1, t1⟩
        cases t1 with
        | true => simp [processLines, hl, ht, ih, h1]
        | false =>
          rcases h2 : processLines L2 with ⟨evs2, t2⟩
          simp [processLines, hl, ht, ih, h1, h2]

/-- The observable part of a session state: the dispatched events and the
terminal flag. -/
def sessionObs (st : SessionState) : List StreamEvent × Bool :=
  (st.events, st.terminated)

theorem processChunk_terminated (st : SessionState) (b : List Nat)
    (h : st.terminated = true) : processChunk st b = st := by
  simp [processChunk, h]

theorem processChunk_eq (st : SessionState) (bytes : List Nat)
    (h : st.terminated = false) :
    processChunk st bytes =
      { decoder := (decodeChunk st.decoder bytes).1,
        buffer := (frame (st.buffer ++ (decodeChunk st.decoder bytes).2)).2,
        events := st.events ++
          (processLines (frame (st.buffer ++ (decodeChunk st.decoder bytes).2)).1).1,
        terminated :=
          (processLines (frame (st.buffer ++ (decodeChunk st.decoder bytes).2)).1).2 } := by
  rcases hd : decodeChunk st.decoder bytes with ⟨d, text⟩
  rcases hp : processLines (frame (st.buffer ++ text)).1 with ⟨evs, t⟩
  simp [processChunk, h, hd, splitNL_eq_frame, List.dropLast_concat,
    getLastD_concat, hp]

theorem processChunk_buffer_no_nl (st : SessionState) (b : List Nat)
    (h : '\n' ∉ st.buffer) : '\n' ∉ (processChunk st b).buffer := by
  by_cases hterm : st.terminated
  · rw [processChunk_terminated st b hterm]; exact h
  · rw [processChunk_eq st b (by simpa using hterm)]
    exact frame_rest_no_nl _

theorem processChunk_nil (st : SessionState) (h : '\n' ∉ st.buffer) :
    processChunk st [] = st := by
  by_cases hterm : st.terminated
  · exact processChunk_terminated st [] hterm
  · rw [processChunk_eq st [] (by simpa using hterm)]
    cases st with
    | mk d buf evs t =>
      simp only [decodeChunk] at h ⊢
      simp [frame_no_nl_eq _ (by simpa using h), processLines]
      simpa using hterm

theorem processChunk_obs_append (st : SessionState) (b1 b2 : List Nat) :
    sessionObs (processChunk st (b1 ++ b2)) =
      sessionObs (processChunk (processChunk st b1) b2) := by
  by_cases hterm : st.terminated
  · rw [processChunk_terminated st _ hterm, processChunk_terminated st _ hterm,
      processChunk_terminated st _ hterm]
  · have hst : st.terminated = false := by simpa using hterm
    rcases hd1 : decodeChunk st.decoder b1 with ⟨d1, t1⟩
    rcases hd2 : decodeChunk d1 b2 with ⟨d2, t2⟩
    have hd12 : decodeChunk st.decoder (b1 ++ b2) = (d2, t1 ++ t2) := by
      rw [decodeChunk_append]; simp [hd1, hd2]
    have hfr := frame_append (st.buffer ++ t1) t2
    have h1 := processChunk_eq st b1 hst
    have h12 := processChunk_eq st (b1 ++ b2) hst
    rcases hpl1 : processLines (frame (st.buffer ++ t1)).1 with ⟨evs1, flag1⟩
    cases flag1 with
    | true =>
      have hterm1 : (processChunk st b1).terminated = true := by
        rw [h1]; simp [hd1, hpl1]
      rw [processChunk_terminated _ b2 hterm1]
      rw [h12, h1]
      simp only [hd12, hd1, sessionObs]
      have hflat : st.buffer ++ (t1 ++ t2) = (st.buffer ++ t1) ++ t2 := by
        simp [List.append_assoc]
      rw [hflat, hfr]
      rw [processLines_append]
      simp [hpl1]
    | false =>
      have hterm1 : (processChunk st b1).terminated = false := by
        rw [h1]; simp [hd1, hpl1]
      have h2 := processChunk_eq (processChunk st b1) b2 hterm1
      rw [h12, h2, h1]
      simp only [hd12, hd1, sessionObs]
      have hflat : st.buffer ++ (t1 ++ t2) = (st.buffer ++ t1) ++ t2 := by
        simp [List.append_assoc]
      rw [hflat, hfr]
      rw [processLines_append]
      simp [hpl1, hd2, List.append_assoc]

theorem foldl_obs (chunks : List (List Nat)) : ∀ st : SessionState,
    '\n' ∉ st.buffer →
    sessionObs (List.foldl processChunk st chunks) =
      sessionObs (processChunk st chunks.flatten) := by
  induction chunks with
  | nil => intro st h; simp [processChunk_nil st h]
  | cons c cs ih =>
    intro st h
    simp only [List.foldl_cons, List.flatten_cons]
    rw [ih (processChunk st c) (processChunk_buffer_no_nl st c h),
      ← processChunk_obs_append]

theorem runChunksState_obs (chunks : List (List Nat)) :
    sessionObs (runChunksState chunks) =
      sessionObs (processChunk .start chunks.flatten) := by
  exact foldl_obs chunks .start (by simp [SessionState.start])

theorem processChunk_start_obs (bytes : List Nat) :
    sessionObs (processChunk .start bytes) =
      (dispatchSeq (streamLines bytes),
       (processLines (streamLines bytes)).2) := by
  rw [processChunk_eq .start bytes rfl]
  simp [sessionObs, SessionState.start, dispatchSeq, streamLines, streamText,
    completeLines_eq_frame]

theorem runChunks_line_semantics (chunks : List (List Nat)) :
    runChunks chunks = dispatchSeq (streamLines chunks.flatten) := by
  have h := (runChunksState_obs chunks).trans (processChunk_start_obs chunks.flatten)
  exact congrArg Prod.fst h

theorem runChunksState_terminated_eq (chunks : List (List Nat)) :
    (runChunksState chunks).terminated =
      (processLines (streamLines chunks.flatten)).2 := by
  have h := (runChunksState_obs chunks).trans (processChunk_start_obs chunks.flatten)
  exact congrArg Prod.snd h

/-- Whether a dispatch sequence contains no terminal callback. -/
def noTerminal (evs : List StreamEvent) : Bool :=
  evs.all (fun e => !e.isTerminal)

/-- Number of terminal callbacks in a dispatch sequence. -/
def terminalCount (evs : List StreamEvent) : Nat :=
  (evs.filter (fun e => e.isTerminal)).length

/-- Shape invariant of a dispatch sequence relative to the terminal flag:
without a terminal dispatch every event is a progress event; with one, the
sequence is progress events followed by exactly one terminal event. -/
def goodSeq (evs : List StreamEvent) : Bool → Prop
  | true => ∃ pre e, evs = pre ++ [e] ∧ noTerminal pre = true ∧ e.isTerminal = true
  | false => noTerminal evs = true

theorem goodSeq_true_iff (evs : List StreamEvent) :
    goodSeq evs true ↔
      ∃ pre e, evs = pre ++ [e] ∧ noTerminal pre = true ∧ e.isTerminal = true :=
  Iff.rfl

theorem goodSeq_false_iff (evs : List StreamEvent) :
    goodSeq evs false ↔ noTerminal evs = true :=
  Iff.rfl

theorem processLines_good (ls : List (List Char)) :
    goodSeq (processLines ls).1 (processLines ls).2 := by
  induction ls with
  | nil => simp [processLines, goodSeq, noTerminal]
  | cons l ls ih =>
    rcases hl : processLine l with _ | e
    · simpa [processLines, hl] using ih
    · by_cases ht : e.isTerminal
      · simp only [processLines, hl, ht, if_true]
        exact ⟨[], e, by simp, by simp [noTerminal], ht⟩
      · rcases hp : processLines ls with ⟨evs, t⟩
        rw [hp] at ih
        have hstep : processLines (l :: ls) = (e :: evs, t) := by
          simp [processLines, hl, ht, hp]
        rw [hstep]
        have ih2 : goodSeq evs t := ih
        cases t with
        | true =>
          rcases (goodSeq_true_iff evs).mp ih2 with ⟨pre, e2, hevs, hpre, he2⟩
          rw [goodSeq_true_iff]
          refine ⟨e :: pre, e2, by simp [hevs], ?_, he2⟩
          simp only [noTerminal, List.all_cons] at hpre ⊢
          simp [ht, hpre]
        | false =>
          show noTerminal (e :: evs) = true
          have hih : noTerminal evs = true := ih2
          simp only [noTerminal, List.all_cons] at hih ⊢
          simp [ht, hih]

theorem goodSeq_append (a b : List StreamEvent) (t : Bool)
    (ha : noTerminal a = true) (hb : goodSeq b t) : goodSeq (a ++ b) t := by
  cases t with
  | true =>
    rcases (goodSeq_true_iff b).mp hb with ⟨pre, e, hb1, hb2, hb3⟩
    rw [goodSeq_true_iff]
    refine ⟨a ++ pre, e, by simp [hb1], ?_, hb3⟩
    simp only [noTerminal, List.all_append, Bool.and_eq_true]
    exact ⟨ha, hb2⟩
  | false =>
    show noTerminal (a ++ b) = true
    have hb2 : noTerminal b = true := hb
    simp only [noTerminal, List.all_append, Bool.and_eq_true]
    exact ⟨ha, hb2⟩

/-- Session invariant: the dispatched events match the terminal flag. -/
def goodState (st : SessionState) : Prop := goodSeq st.events st.terminated

theorem processChunk_good (st : SessionState) (b : List Nat)
    (h : goodState st) : goodState (processChunk st b) := by
  by_cases hterm : st.terminated
  · rw [processChunk_terminated st b hterm]; exact h
  · have hst : st.terminated = false := by simpa using hterm
    have hev : noTerminal st.events = true := by
      have h2 : goodSeq st.events st.terminated := h
      rw [hst] at h2
      exact h2
    rw [processChunk_eq st b hst]
    show goodSeq (st.events ++ _) _
    exact goodSeq_append _ _ _ hev (processLines_good _)

theorem foldl_good (chunks : List (List Nat)) : ∀ st : SessionState,
    goodState st → goodState (List.foldl processChunk st chunks) := by
  induction chunks with
  | nil => intro st h; exact h
  | cons c cs ih => intro st h; exact ih _ (processChunk_good st c h)

theorem runChunksState_good (chunks : List (List Nat)) :
    goodState (runChunksState chunks) := by
  exact foldl_good chunks .start rfl

theorem noTerminal_filter (evs : List StreamEvent) (h : noTerminal evs = true) :
    evs.filter (fun e => e.isTerminal) = [] := by
  rw [List.filter_eq_nil_iff]
  intro e he
  have := List.all_eq_true.mp h e he
  simpa using this

theorem noTerminal_sublist {a b : List StreamEvent} (hs : a.Sublist b)
    (h : noTerminal b = true) : noTerminal a = true := by
  rw [noTerminal, List.all_eq_true] at *
  exact fun e he => h e (hs.subset he)

theorem goodSeq_count (evs : List StreamEvent) (t : Bool) (h : goodSeq evs t) :
    terminalCount evs = if t then 1 else 0 := by
  cases t with
  | true =>
    rcases (goodSeq_true_iff evs).mp h with ⟨pre, e, h1, h2, h3⟩
    simp [terminalCount, h1, List.filter_append, noTerminal_filter pre h2, h3]
  | false =>
    have h2 : noTerminal evs = true := h
    simp [terminalCount, noTerminal_filter evs h2]

theorem goodSeq_dropLast (evs : List StreamEvent) (t : Bool)
    (h : goodSeq evs t) : noTerminal evs.dropLast = true := by
  cases t with
  | true =>
    rcases (goodSeq_true_iff evs).mp h with ⟨pre, e, h1, h2, h3⟩
    simpa [h1, List.dropLast_concat] using h2
  | false =>
    exact noTerminal_sublist (List.dropLast_sublist evs) h

/-- The single error event produced by the catch clause for an
exception. -/
def catchEvent (e : JsError) : StreamEvent :=
  .error (.str (errMessageOr e.text))

theorem runStream_goodSeq (status : Nat) (chunks : List (List Nat))
    (ending : StreamEnding) :
    ∃ t, goodSeq (runStream status chunks ending) t := by
  by_cases hok : httpOk status
  · have hgood : goodState (runChunksState chunks) := runChunksState_good chunks
    by_cases hterm : (runChunksState chunks).terminated
    · refine ⟨true, ?_⟩
      have : runStream status chunks ending = (runChunksState chunks).events := by
        simp [runStream, runStreamBody, hok, hterm, handleFailure]
      rw [this]
      have h2 : goodSeq (runChunksState chunks).events true := by
        have := hgood
        rw [goodState, hterm] at this
        exact this
      exact h2
    · have hterm2 : (runChunksState chunks).terminated = false := by simpa using hterm
      have hev : noTerminal (runChunksState chunks).events = true := by
        have := hgood
        rw [goodState, hterm2] at this
        exact this
      cases ending with
      | done =>
        refine ⟨false, ?_⟩
        have : runStream status chunks .done = (runChunksState chunks).events := by
          simp [runStream, runStreamBody, hok, hterm2, handleFailure]
        rw [this]
        exact hev
      | failed m =>
        refine ⟨true, ?_⟩
        have : runStream status chunks (.failed m) =
            (runChunksState chunks).events ++ [catchEvent (.transportError m)] := by
          simp [runStream, runStreamBody, hok, hterm2, handleFailure, catchEvent]
        rw [this]
        exact goodSeq_append _ _ true hev
          ((goodSeq_true_iff _).mpr ⟨[], catchEvent (.transportError m), by simp,
            by simp [noTerminal], by simp [catchEvent, StreamEvent.isTerminal]⟩)
      | aborted =>
        refine ⟨false, ?_⟩
        have : runStream status chunks .aborted = (runChunksState chunks).events := by
          simp [runStream, runStreamBody, hok, hterm2, handleFailure]
        rw [this]
        exact hev
  · refine ⟨true, ?_⟩
    have : runStream status chunks ending = [catchEvent (.httpError status)] := by
      simp [runStream, runStreamBody, hok, handleFailure, catchEvent]
    rw [this]
    exact (goodSeq_true_iff _).mpr ⟨[], catchEvent (.httpError status), by simp,
      by simp [noTerminal], by simp [catchEvent, StreamEvent.isTerminal]⟩

/-- Concrete stream bytes: two progress frames, a complete frame, and a
further progress frame that must be ignored after the terminal dispatch. -/
def c4Bytes : List Nat := asciiBytes "data: \x7b\"type\":\"progress\",\"agent\":\"a\"\x7d\ndata: \x7b\"type\":\"progress\",\"agent\":\"b\"\x7d\ndata: \x7b\"type\":\"complete\",\"result\":\x7b\"ok\":true\x7d\x7d\ndata: \x7b\"type\":\"progress\",\"agent\":\"c\"\x7d\n"

/-- Concrete stream bytes of one progress frame whose agent field is a
two-byte character (an accented letter encoded as bytes 195, 169). -/
def mbFrameBytes : List Nat :=
  asciiBytes "data: \x7b\"type\":\"progress\",\"agent\":\"" ++ [195, 169] ++
  asciiBytes "\"\x7d\n"

/-- C1 counterexample: a transport that ends with no frames at all (and no
prior terminal dispatch) produces no callback invocation whatsoever — in
particular onError is not invoked with any message, contradicting the
claim that it is invoked exactly once. -/
theorem c1_counterexample : runStream 200 [] StreamEnding.done = [] := rfl

/-- C1 amended: when the stream signals completion without a prior
terminal dispatch, the client invokes no further callback at all — the run
ends silently, with zero terminal callbacks ever dispatched. -/
theorem c1_stream_end_silent (chunks : List (List Nat))
    (h : (runChunksState chunks).terminated = false) :
    runStream 200 chunks StreamEnding.done = runChunks chunks ∧
    terminalCount (runChunks chunks) = 0 := by
  have hok : httpOk 200 = true := rfl
  constructor
  · simp [runStream, runStreamBody, hok, h, handleFailure, runChunks]
  · have hg : goodSeq (runChunksState chunks).events false := by
      have hgs := runChunksState_good chunks
      rw [goodState, h] at hgs
      exact hgs
    simpa [runChunks] using goodSeq_count _ _ hg

/-- C1 witness: the empty stream instantiates the amended claim. -/
theorem c1_witness :
    (runChunksState []).terminated = false ∧
    (runStream 200 [] StreamEnding.done = runChunks [] ∧
     terminalCount (runChunks []) = 0) :=
  ⟨rfl, c1_stream_end_silent [] rfl⟩

/-- C2: a run cancelled at await point k dispatches only the events of the
first k chunks — chunks delivered after the cancellation point have no
effect on the dispatched callbacks — and cancellation before the first
read yields no callback ever. -/
theorem c2_cancel_no_callbacks (c1 c2 : List (List Nat)) (k : Nat)
    (h : c1.take k = c2.take k) :
    runCancelled c1 k = runCancelled c2 k ∧ runCancelled c1 0 = [] := by
  constructor
  · unfold runCancelled
    rw [h]
  · rfl

/-- C2 witness: two streams that agree on the first chunk and differ
afterwards give the same cancelled-run dispatches. -/
theorem c2_witness :
    ([[10, 13], [100]] : List (List Nat)).take 1 =
      ([[10, 13], [101]] : List (List Nat)).take 1 ∧
    (runCancelled [[10, 13], [100]] 1 = runCancelled [[10, 13], [101]] 1 ∧
     runCancelled [[10, 13], [100]] 0 = []) :=
  ⟨rfl, c2_cancel_no_callbacks _ _ 1 rfl⟩

/-- C3: for every run, at most one terminal callback (onComplete or
onError) is dispatched, and every callback other than the last dispatched
one is a progress callback — nothing follows a terminal dispatch. -/
theorem c3_single_terminal (status : Nat) (chunks : List (List Nat))
    (ending : StreamEnding) :
    terminalCount (runStream status chunks ending) ≤ 1 ∧
    noTerminal (runStream status chunks ending).dropLast = true := by
  rcases runStream_goodSeq status chunks ending with ⟨t, hgs⟩
  refine ⟨?_, goodSeq_dropLast _ _ hgs⟩
  rw [goodSeq_count _ _ hgs]
  cases t <;> simp

/-- C4: the dispatch sequence is exactly the line-by-line dispatch of the
decoded stream content in stream order (so progress events fire in frame
order), every event before the last is a progress event, and the concrete
stream progress A, progress B, complete C (followed by a further frame)
dispatches exactly onProgress A, onProgress B, onComplete C. -/
theorem c4_dispatch_order :
    (∀ chunks : List (List Nat),
      runChunks chunks = dispatchSeq (streamLines chunks.flatten)) ∧
    (∀ chunks : List (List Nat),
      noTerminal (runChunks chunks).dropLast = true) ∧
    runChunks [c4Bytes] =
      [.progress (.obj [("type".toList, .str "progress".toList),
                        ("agent".toList, .str "a".toList)]),
       .progress (.obj [("type".toList, .str "progress".toList),
                        ("agent".toList, .str "b".toList)]),
       .complete (some (.obj [("ok".toList, .bool true)]))] := by
  refine ⟨runChunks_line_semantics, ?_, rfl⟩
  intro chunks
  exact goodSeq_dropLast _ _ (runChunksState_good chunks)

/-- C7: the dispatched events depend only on the concatenated byte content,
not on how the transport splits it into chunks; concretely, a progress
frame whose payload contains a two-byte character split across two chunks
is decoded to the correct character exactly once. -/
theorem c7_chunk_boundary_independent :
    (∀ c1 c2 : List (List Nat), c1.flatten = c2.flatten →
      runChunks c1 = runChunks c2) ∧
    runChunks [mbFrameBytes.take 35, mbFrameBytes.drop 35] =
      [.progress (.obj [("type".toList, .str "progress".toList),
                        ("agent".toList, .str ['é'])])] := by
  constructor
  · intro c1 c2 h
    rw [runChunks_line_semantics, runChunks_line_semantics, h]
  · rfl

/-- C7 witness: the split inside the two-byte character and the unsplit
stream have the same content and the same dispatches. -/
theorem c7_witness :
    ([mbFrameBytes.take 35, mbFrameBytes.drop 35] : List (List Nat)).flatten =
      ([mbFrameBytes] : List (List Nat)).flatten ∧
    runChunks [mbFrameBytes.take 35, mbFrameBytes.drop 35] =
      runChunks [mbFrameBytes] :=
  ⟨rfl, c7_chunk_boundary_independent.1 _ _ rfl⟩


theorem processLine_dispatch (line : List Char) (data : Json)
    (h2 : (jsTrim line).isEmpty = false)
    (h3 : dataMarker.isPrefixOf line = true)
    (h4 : JSON.parse (line.drop 6) = some data) :
    processLine line =
      (match getField data "type".toList with
       | some (.str t) =>
         if t = "progress".toList then some (.progress data)
         else if t = "complete".toList then
           some (.complete (getField data "result".toList))
         else if t = "error".toList then
           some (.error (messageOr (getField data "message".toList)))
         else none
       | _ => none) := by
  unfold processLine
  rw [h2, h3, h4]
  simp

/-- Concrete stream bytes of one error frame whose message field is
present but is the empty string. -/
def c5EmptyMsgBytes : List Nat :=
  asciiBytes "data: \x7b\"type\":\"error\",\"message\":\"\"\x7d\n"

/-- The payload of the empty-message error frame. -/
def c5Payload : List Char :=
  "\x7b\"type\":\"error\",\"message\":\"\"\x7d".toList

/-- C5 counterexample: for an error frame whose message field is present
but empty, onError is invoked with the fixed fallback string, not with the
payload message — the fallback has length 15 while the present message is
empty, so the claim that a present message field is always passed through
fails on this input. -/
theorem c5_counterexample :
    runChunks [c5EmptyMsgBytes] = [.error (.str fallbackMessage)] ∧
    JSON.parse c5Payload =
      some (.obj [("type".toList, .str "error".toList),
                  ("message".toList, .str [])]) ∧
    fallbackMessage.length = 15 :=
  ⟨rfl, rfl, rfl⟩

/-- C5 amended: a stream consisting of one error frame invokes onError
exactly once, with the message field of the payload when that field is
present and truthy (in particular any non-empty string), and with the
fixed fallback string when it is absent or falsy (absent, null, empty
string, zero or false). -/
theorem c5_error_message_dispatch (bytes : List Nat) (line : List Char)
    (data : Json)
    (h1 : streamLines bytes = [line])
    (h2 : (jsTrim line).isEmpty = false)
    (h3 : dataMarker.isPrefixOf line = true)
    (h4 : JSON.parse (line.drop 6) = some data)
    (h5 : getField data "type".toList = some (.str "error".toList)) :
    runChunks [bytes] =
      [.error (messageOr (getField data "message".toList))] := by
  have hls := runChunks_line_semantics [bytes]
  have hfl : ([bytes] : List (List Nat)).flatten = bytes := by simp
  rw [hfl, h1] at hls
  rw [hls]
  have hpl : processLine line =
      some (.error (messageOr (getField data "message".toList))) := by
    rw [processLine_dispatch line data h2 h3 h4, h5]
    simp
  simp [dispatchSeq, processLines, hpl, StreamEvent.isTerminal]

/-- Concrete stream bytes of one error frame carrying a non-empty
message. -/
def c5InsufBytes : List Nat :=
  asciiBytes "data: \x7b\"type\":\"error\",\"message\":\"insufficient data\"\x7d\n"

/-- The single line framed from that stream. -/
def c5InsufLine : List Char :=
  "data: \x7b\"type\":\"error\",\"message\":\"insufficient data\"\x7d".toList

/-- The decoded payload of that frame. -/
def c5InsufData : Json :=
  .obj [("type".toList, .str "error".toList),
        ("message".toList, .str "insufficient data".toList)]

/-- C5 witness: the insufficient-data error frame invokes onError exactly
once with the backend-supplied message. -/
theorem c5_witness :
    streamLines c5InsufBytes = [c5InsufLine] ∧
    (jsTrim c5InsufLine).isEmpty = false ∧
    dataMarker.isPrefixOf c5InsufLine = true ∧
    JSON.parse (c5InsufLine.drop 6) = some c5InsufData ∧
    getField c5InsufData "type".toList = some (.str "error".toList) ∧
    runChunks [c5InsufBytes] = [.error (.str "insufficient data".toList)] :=
  ⟨rfl, rfl, rfl, rfl, rfl,
   c5_error_message_dispatch c5InsufBytes c5InsufLine c5InsufData
     rfl rfl rfl rfl rfl⟩

/-- Concrete stream bytes: a valid progress frame, a malformed JSON line,
and another valid progress frame. -/
def c6Bytes : List Nat :=
  asciiBytes "data: \x7b\"type\":\"progress\",\"agent\":\"a\"\x7d\ndata: \x7bnotjson\ndata: \x7b\"type\":\"progress\",\"agent\":\"b\"\x7d\n"

/-- C6: a data line whose payload is not valid JSON is skipped without any
callback and without ending the run — removing it from the line sequence
leaves the dispatches unchanged — and in the concrete malformed-middle
stream both surrounding progress frames are dispatched in order. -/
theorem c6_malformed_frame_skipped :
    (∀ (pre post : List (List Char)) (bad : List Char),
      dataMarker.isPrefixOf bad = true →
      JSON.parse (bad.drop 6) = none →
      processLines (pre ++ bad :: post) = processLines (pre ++ post)) ∧
    runChunks [c6Bytes] =
      [.progress (.obj [("type".toList, .str "progress".toList),
                        ("agent".toList, .str "a".toList)]),
       .progress (.obj [("type".toList, .str "progress".toList),
                        ("agent".toList, .str "b".toList)])] := by
  constructor
  · intro pre post bad hp hn
    have hbad : processLine bad = none := by
      by_cases ht : (jsTrim bad).isEmpty
      · simp [processLine, ht]
      · simp [processLine, ht, hp, hn]
    induction pre with
    | nil => simp [processLines, hbad]
    | cons p pre ih =>
      rcases hpe : processLine p with _ | e
      · simpa [processLines, hpe] using ih
      · by_cases hterm : e.isTerminal
        · simp [processLines, hpe, hterm]
        · simp [processLines, hpe, hterm, ih]
  · rfl

/-- C6 witness: a concrete malformed data line between two other lines is
dropped from the dispatch computation. -/
theorem c6_witness :
    dataMarker.isPrefixOf "data: \x7bnotjson".toList = true ∧
    JSON.parse ("data: \x7bnotjson".toList.drop 6) = none ∧
    processLines (["x".toList] ++ "data: \x7bnotjson".toList :: ["y".toList]) =
      processLines (["x".toList] ++ ["y".toList]) :=
  ⟨rfl, rfl, c6_malformed_frame_skipped.1 _ _ _ rfl rfl⟩

/-- C8: a line that is blank after trimming, a line without the data
marker, and a well-formed frame whose type is none of progress, complete,
error are all ignored: no callback is produced and the loop continues with
the remaining lines unchanged. -/
theorem c8_skip_rules (line : List Char) (ls : List (List Char))
    (h : (jsTrim line).isEmpty = true ∨
         dataMarker.isPrefixOf line = false ∨
         (∀ data : Json, JSON.parse (line.drop 6) = some data →
           ∀ t : List Char, getField data "type".toList = some (.str t) →
             t ≠ "progress".toList ∧ t ≠ "complete".toList ∧
             t ≠ "error".toList)) :
    processLine line = none ∧ processLines (line :: ls) = processLines ls := by
  have hnone : processLine line = none := by
    rcases h with h | h | h
    · simp [processLine, h]
    · by_cases ht : (jsTrim line).isEmpty
      · simp [processLine, ht]
      · simp [processLine, ht, h]
    · by_cases ht : (jsTrim line).isEmpty
      · simp [processLine, ht]
      · have ht2 : (jsTrim line).isEmpty = false := by simpa using ht
        by_cases hp : dataMarker.isPrefixOf line
        · rcases hj : JSON.parse (line.drop 6) with _ | data
          · simp [processLine, ht, hp, hj]
          · rw [processLine_dispatch line data ht2 hp hj]
            rcases hty : getField data "type".toList with _ | tv
            · simp
            · cases tv with
              | str t =>
                obtain ⟨n1, n2, n3⟩ := h data hj t hty
                show (if t = "progress".toList then some (StreamEvent.progress data)
                  else if t = "complete".toList then
                    some (StreamEvent.complete (getField data "result".toList))
                  else if t = "error".toList then
                    some (StreamEvent.error (messageOr (getField data "message".toList)))
                  else none) = none
                rw [if_neg n1, if_neg n2, if_neg n3]
              | null => simp
              | bool b => simp
              | num q => simp
              | arr a => simp
              | obj o => simp
        · simp [processLine, ht, hp]
  exact ⟨hnone, by simp [processLines, hnone]⟩

/-- C8 witness: a line of one space is blank after trimming and is
skipped. -/
theorem c8_witness :
    (jsTrim " ".toList).isEmpty = true ∧
    (processLine " ".toList = none ∧
     processLines (" ".toList :: ["z".toList]) = processLines ["z".toList]) :=
  ⟨rfl, c8_skip_rules _ _ (Or.inl rfl)⟩

/-- C9: the cancellation handle is returned synchronously, independent of
anything the network later delivers (it is the first component of the
pair, built before the run consumes any input); every exception of the run
body other than the abort error is surfaced exactly once through onError
with its message appended after the events already dispatched; and in
particular a non-success response status yields exactly one onError
invocation with the status message and nothing is thrown past the client
boundary. -/
theorem c9_failures_surfaced :
    (∀ r : AnalysisRequest, (runAnalysis r).1 = cancelHandle) ∧
    (∀ (status : Nat) (chunks : List (List Nat)) (ending : StreamEnding)
       (err : JsError),
      (runStreamBody status chunks ending).2 = some err →
      err ≠ JsError.abortError →
      runStream status chunks ending =
        (runStreamBody status chunks ending).1 ++ [catchEvent err]) ∧
    (∀ (status : Nat) (chunks : List (List Nat)) (ending : StreamEnding),
      httpOk status = false →
      runStream status chunks ending = [catchEvent (.httpError status)]) := by
  refine ⟨fun r => rfl, ?_, ?_⟩
  · intro status chunks ending err h hne
    rcases hb : runStreamBody status chunks ending with ⟨evs, oe⟩
    rw [hb] at h
    simp only at h
    subst h
    cases err with
    | abortError => exact absurd rfl hne
    | httpError s2 => simp [runStream, hb, handleFailure, catchEvent]
    | transportError m => simp [runStream, hb, handleFailure, catchEvent]
  · intro status chunks ending h
    simp [runStream, runStreamBody, h, handleFailure, catchEvent]

/-- C9 witness: a 500 response yields exactly the one onError dispatch
with the status message, both through the generic catch clause and as the
end-to-end run result, and the handle of a concrete request is the cancel
closure. -/
theorem c9_witness :
    (runStreamBody 500 [] StreamEnding.done).2 = some (JsError.httpError 500) ∧
    JsError.httpError 500 ≠ JsError.abortError ∧
    runStream 500 [] StreamEnding.done =
      (runStreamBody 500 [] StreamEnding.done).1 ++
        [catchEvent (.httpError 500)] ∧
    httpOk 404 = false ∧
    runStream 404 [] StreamEnding.done = [catchEvent (.httpError 404)] ∧
    (runAnalysis ⟨[], [], [], [], none, none, none, none⟩).1 = cancelHandle :=
  ⟨rfl, by decide,
   c9_failures_surfaced.2.1 500 [] .done (.httpError 500) rfl (by decide),
   rfl, c9_failures_surfaced.2.2 404 [] .done rfl,
   c9_failures_surfaced.1 _⟩

/-- C10: the outbound body always contains the initial_cash and
margin_requirement members; initial_cash is 100000 exactly when the
request value is absent or zero and the request value otherwise, and
margin_requirement is 0 exactly when the request value is absent or zero
and the request value otherwise. -/
theorem c10_cash_defaults (r : AnalysisRequest) :
    getField (buildRequestBody r) "initial_cash".toList =
      some (.num (jsNumOr r.initialCash 100000)) ∧
    getField (buildRequestBody r) "margin_requirement".toList =
      some (.num (jsNumOr r.marginRequirement 0)) ∧
    (r.initialCash = none ∨ r.initialCash = some 0 →
      jsNumOr r.initialCash 100000 = 100000) ∧
    (∀ v : Rat, r.initialCash = some v → v ≠ 0 →
      jsNumOr r.initialCash 100000 = v) ∧
    (r.marginRequirement = none ∨ r.marginRequirement = some 0 →
      jsNumOr r.marginRequirement 0 = 0) ∧
    (∀ v : Rat, r.marginRequirement = some v → v ≠ 0 →
      jsNumOr r.marginRequirement 0 = v) := by
  obtain ⟨t, a, mp, mn, sd, ed, ic, mr⟩ := r
  refine ⟨?_, ?_, ?_, ?_, ?_, ?_⟩
  · cases sd <;> cases ed <;> rfl
  · cases sd <;> cases ed <;> rfl
  · rintro (h | h) <;> subst h <;> simp [jsNumOr]
  · rintro v h hnz
    subst h
    simp [jsNumOr, hnz]
  · rintro (h | h) <;> subst h <;> simp [jsNumOr]
  · rintro v h hnz
    subst h
    simp [jsNumOr, hnz]

/-- C10 witness: a request with zero initial cash is sent with the default
100000, and a request with a non-zero initial cash and margin keeps its
values. -/
theorem c10_witness :
    getField (buildRequestBody ⟨[], [], [], [], none, none, some 0, none⟩)
      "initial_cash".toList = some (.num 100000) ∧
    getField (buildRequestBody ⟨[], [], [], [], none, none, some 0, none⟩)
      "margin_requirement".toList = some (.num 0) ∧
    ((some 0 : Option Rat) = none ∨ (some 0 : Option Rat) = some 0) ∧
    jsNumOr (some 0) 100000 = 100000 ∧
    getField (buildRequestBody ⟨[], [], [], [], none, none, some 250000,
      some 3⟩) "initial_cash".toList = some (.num 250000) ∧
    (250000 : Rat) ≠ 0 ∧
    jsNumOr (some 250000) 100000 = 250000 ∧
    getField (buildRequestBody ⟨[], [], [], [], none, none, some 250000,
      some 3⟩) "margin_requirement".toList = some (.num 3) :=
  ⟨(c10_cash_defaults _).1, (c10_cash_defaults _).2.1,
   Or.inr rfl,
   (c10_cash_defaults ⟨[], [], [], [], none, none, some 0, none⟩).2.2.1
     (Or.inr rfl),
   (c10_cash_defaults _).1,
   by decide,
   (c10_cash_defaults ⟨[], [], [], [], none, none, some 250000,
     some 3⟩).2.2.2.1 250000 rfl (by decide),
   (c10_cash_defaults _).2.1⟩
